import Mathlib

/-!
Shallow embedding of the AI sidecar proxy core.

Sources embedded here:
* `rust-ai-sidecar-proxy/src/ai.rs` — `RequestMetrics`, `ServiceHealth`,
  `AIDecision`, `record_request`, `update_service_health`,
  `calculate_endpoint_score`, `select_endpoint`.
* `rust-ai-sidecar-proxy/src/proxy.rs` — `extract_service_name`,
  `handle_request` routing, upstream outcome classification.
* `ai-sidecar-showcase/backend/src/circuit_breaker.rs` — the 3-state
  circuit breaker.
* `ai-sidecar-showcase/backend/src/rate_limiter.rs` — token buckets.
* `ai-sidecar-showcase/backend/src/health_checker.rs` — `HealthStatus`,
  `mark_endpoint_unhealthy`, `is_endpoint_healthy`.

Modelling conventions: `f64` values become `ℚ` (exact rational arithmetic in
place of IEEE doubles), `u32`/`u64` counters become `ℕ`, `Instant` becomes a
rational time stamp passed explicitly to each operation, and
`Instant::duration_since` (which saturates at zero on a monotonic clock) is
`max (now - earlier) 0`.  A Rust `HashMap` used as a store becomes a function
into `Option`, except where the code *iterates* the map: there the iteration
order is unspecified in Rust, and the embedding takes the order as an explicit
list parameter constrained to be a permutation of the distinct keys.
-/

/-- Mirror of `RequestMetrics` in `ai.rs` (f64/u64 made exact). -/
structure RequestMetrics where
  latency_ms : ℕ
  status_code : ℕ
  endpoint : String
  timestamp : ℕ
  success : Bool
deriving DecidableEq

/-- Mirror of `ServiceHealth` in `ai.rs`. -/
structure ServiceHealth where
  endpoint : String
  success_rate : ℚ
  avg_latency_ms : ℚ
  error_count : ℕ
  total_requests : ℕ
  last_updated : ℕ
deriving DecidableEq

/-- Mirror of `AIDecision` in `ai.rs`.  The `reasoning` string of the code
interpolates the score with `{:.3}` formatting; the embedding keeps only the
fixed prefix of that message. -/
structure AIDecision where
  selected_endpoint : String
  confidence : ℚ
  reasoning : String
  fallback_endpoints : List String
deriving DecidableEq

/-- The record inserted by `or_insert` in `update_service_health`. -/
def fresh_health (endpoint : String) (timestamp : ℕ) : ServiceHealth :=
  { endpoint := endpoint
    success_rate := 1
    avg_latency_ms := 0
    error_count := 0
    total_requests := 0
    last_updated := timestamp }

/-- The per-record mutation performed by `update_service_health` in `ai.rs`
(`alpha = 0.1` written as `1/10`). -/
def update_health_record (health : ServiceHealth) (metrics : RequestMetrics) :
    ServiceHealth :=
  let total_requests := health.total_requests + 1
  let error_count :=
    if metrics.success then health.error_count else health.error_count + 1
  let alpha : ℚ := 1/10
  { health with
    total_requests := total_requests
    error_count := error_count
    success_rate := 1 - (error_count : ℚ) / (total_requests : ℚ)
    avg_latency_ms :=
      alpha * (metrics.latency_ms : ℚ) + (1 - alpha) * health.avg_latency_ms
    last_updated := metrics.timestamp }

/-- `update_service_health` in `ai.rs`: the `service_metrics` map entry for
`metrics.endpoint` is created if absent and then mutated in place. -/
def update_service_health (store : String → Option ServiceHealth)
    (metrics : RequestMetrics) : String → Option ServiceHealth :=
  let current :=
    (store metrics.endpoint).getD (fresh_health metrics.endpoint metrics.timestamp)
  fun e =>
    if e = metrics.endpoint then some (update_health_record current metrics)
    else store e

/-- The history half of `record_request` in `ai.rs`: push, then
`drain(0..1000)` when the length exceeds 10000. -/
def record_request_history (history : List RequestMetrics)
    (metrics : RequestMetrics) : List RequestMetrics :=
  let history := history ++ [metrics]
  if 10000 < history.length then history.drop 1000 else history

/-- The `AIEngine` mutable state: the `service_metrics` map and the
`request_history` buffer (`learning_weights` is never read by the core). -/
structure AIEngineState where
  service_metrics : String → Option ServiceHealth
  request_history : List RequestMetrics

/-- `AIEngine::new`. -/
def AIEngine.new : AIEngineState :=
  { service_metrics := fun _ => none, request_history := [] }

/-- `record_request` in `ai.rs`: append to the history buffer (with the
10000/1000 trim) and update the endpoint health record. -/
def record_request (st : AIEngineState) (metrics : RequestMetrics) :
    AIEngineState :=
  { service_metrics := update_service_health st.service_metrics metrics
    request_history := record_request_history st.request_history metrics }

/-- `calculate_endpoint_score` in `ai.rs` (weights 0.6/0.4 written as
`6/10`/`4/10`; the final `score.min(1.0).max(0.0)` clamp kept in that order). -/
def calculate_endpoint_score (health : ServiceHealth) : ℚ :=
  let success_weight : ℚ := 6/10
  let latency_weight : ℚ := 4/10
  let success_score := health.success_rate
  let normalized_latency : ℚ :=
    if 0 < health.avg_latency_ms then 1 / (1 + health.avg_latency_ms / 1000)
    else 1
  let score := success_weight * success_score + latency_weight * normalized_latency
  max (min score 1) 0

/-- The per-endpoint score computed inside `select_endpoint`: the health
record's score when present, `0.5` otherwise. -/
def endpoint_score (store : String → Option ServiceHealth)
    (endpoint : String) : ℚ :=
  match store endpoint with
  | some health => calculate_endpoint_score health
  | none => 1/2

/-- Rust `Iterator::max_by` keeps the *last* of equally-maximal elements: the
running fold replaces the accumulator whenever the comparison is not
`Greater`, i.e. whenever `acc.2 ≤ x.2`. -/
def rust_max_by_aux (best : String × ℚ) : List (String × ℚ) → String × ℚ
  | [] => best
  | x :: xs => rust_max_by_aux (if best.2 ≤ x.2 then x else best) xs

/-- Rust `Iterator::max_by` over a list of (endpoint, score) pairs: `none` on
an empty iterator, otherwise the fold of `rust_max_by_aux` seeded with the
first element. -/
def rust_max_by : List (String × ℚ) → Option (String × ℚ)
  | [] => none
  | x :: xs => some (rust_max_by_aux x xs)

/-- `select_endpoint` in `ai.rs`.  The code builds a `HashMap` from endpoint
to score and then iterates it (`max_by`, `filter`, `sort_by`); a `HashMap`
iterates its keys in an unspecified order, so the embedding takes that order
as the parameter `iteration_order`, expected to be a permutation of the
distinct endpoints of `available_endpoints`.  `sort_by` with comparator
`b.partial_cmp(a)` is Rust's stable descending sort, embedded as `mergeSort`
with `b.2 ≤ a.2`. -/
def select_endpoint (store : String → Option ServiceHealth)
    (iteration_order : List String) (available_endpoints : List String) :
    AIDecision :=
  if available_endpoints.isEmpty then
    { selected_endpoint := ""
      confidence := 0
      reasoning := "No available endpoints"
      fallback_endpoints := [] }
  else
    let endpoint_scores :=
      iteration_order.map (fun e => (e, endpoint_score store e))
    let best_endpoint :=
      (rust_max_by endpoint_scores).getD (available_endpoints.headD "", 1/2)
    let fallback_with_scores :=
      endpoint_scores.filter (fun p => p.1 ≠ best_endpoint.1)
    let sorted :=
      fallback_with_scores.mergeSort (fun a b => decide (b.2 ≤ a.2))
    { selected_endpoint := best_endpoint.1
      confidence := best_endpoint.2
      reasoning := "Selected " ++ best_endpoint.1 ++
        " based on success rate and latency analysis"
      fallback_endpoints := sorted.map (·.1) }

/-- Mirror of `CircuitBreakerState` in `circuit_breaker.rs`. -/
inductive CircuitBreakerState where
  | Closed
  | Open
  | HalfOpen
deriving DecidableEq

/-- Mirror of `CircuitBreaker` in `circuit_breaker.rs`; `Instant` becomes a
rational time stamp, `Duration` a rational number of seconds. -/
structure CircuitBreaker where
  state : CircuitBreakerState
  failure_count : ℕ
  success_count : ℕ
  last_failure_time : Option ℚ
  failure_threshold : ℕ
  timeout : ℚ
  half_open_max_calls : ℕ
  half_open_success_threshold : ℕ
deriving DecidableEq

/-- `CircuitBreaker::new`. -/
def CircuitBreaker.new (failure_threshold : ℕ) : CircuitBreaker :=
  { state := .Closed
    failure_count := 0
    success_count := 0
    last_failure_time := none
    failure_threshold := failure_threshold
    timeout := 60
    half_open_max_calls := 5
    half_open_success_threshold := 3 }

/-- `should_attempt_reset`: true when a last failure is recorded and at least
`timeout` has elapsed since it. -/
def should_attempt_reset (cb : CircuitBreaker) (now : ℚ) : Bool :=
  match cb.last_failure_time with
  | some last_failure => decide (cb.timeout ≤ now - last_failure)
  | none => false

/-- `transition_to_open`: idempotent entry into `Open`. -/
def transition_to_open (cb : CircuitBreaker) : CircuitBreaker :=
  if cb.state ≠ .Open then { cb with state := .Open } else cb

/-- `transition_to_half_open`: only effective from `Open`; resets the
half-open success counter. -/
def transition_to_half_open (cb : CircuitBreaker) : CircuitBreaker :=
  if cb.state = .Open then { cb with state := .HalfOpen, success_count := 0 }
  else cb

/-- `transition_to_closed`: resets both counters. -/
def transition_to_closed (cb : CircuitBreaker) : CircuitBreaker :=
  { cb with state := .Closed, failure_count := 0, success_count := 0 }

/-- `is_open` in `circuit_breaker.rs`: returns the probe answer together with
the (possibly transitioned) breaker. -/
def is_open (cb : CircuitBreaker) (now : ℚ) : Bool × CircuitBreaker :=
  match cb.state with
  | .Open =>
      if should_attempt_reset cb now then (false, transition_to_half_open cb)
      else (true, cb)
  | .HalfOpen => (false, cb)
  | .Closed => (false, cb)

/-- `record_success` in `circuit_breaker.rs`. -/
def record_success (cb : CircuitBreaker) : CircuitBreaker :=
  match cb.state with
  | .Closed => { cb with failure_count := 0 }
  | .HalfOpen =>
      let success_count := cb.success_count + 1
      let cb := { cb with success_count := success_count }
      if cb.half_open_success_threshold ≤ success_count then
        transition_to_closed cb
      else cb
  | .Open => cb

/-- `record_failure` in `circuit_breaker.rs`.  Note that the `HalfOpen` branch
calls `transition_to_open` only: unlike the `Closed` and `Open` branches it
does not write `last_failure_time`. -/
def record_failure (cb : CircuitBreaker) (now : ℚ) : CircuitBreaker :=
  match cb.state with
  | .Closed =>
      let failure_count := cb.failure_count + 1
      let cb :=
        { cb with failure_count := failure_count, last_failure_time := some now }
      if cb.failure_threshold ≤ failure_count then transition_to_open cb
      else cb
  | .HalfOpen => transition_to_open cb
  | .Open => { cb with last_failure_time := some now }

/-- Mirror of `TokenBucket` in `rate_limiter.rs`. -/
structure TokenBucket where
  tokens : ℚ
  last_refill : ℚ
  capacity : ℚ
  refill_rate : ℚ
deriving DecidableEq

/-- `TokenBucket::new`: starts full, with `last_refill` at creation time. -/
def TokenBucket.new (capacity refill_rate now : ℚ) : TokenBucket :=
  { tokens := capacity
    last_refill := now
    capacity := capacity
    refill_rate := refill_rate }

/-- `TokenBucket::refill`: lazy refill clamped to capacity.
`Instant::duration_since` saturates at zero, hence the `max _ 0`. -/
def TokenBucket.refill (b : TokenBucket) (now : ℚ) : TokenBucket :=
  let elapsed := max (now - b.last_refill) 0
  let tokens_to_add := elapsed * b.refill_rate
  { b with
    tokens := min (b.tokens + tokens_to_add) b.capacity
    last_refill := now }

/-- `TokenBucket::try_consume`: refill, then deduct when enough tokens are
available. -/
def TokenBucket.try_consume (b : TokenBucket) (now tokens : ℚ) :
    Bool × TokenBucket :=
  let b := b.refill now
  if tokens ≤ b.tokens then (true, { b with tokens := b.tokens - tokens })
  else (false, b)

/-- The two fields of `RateLimitConfig` the bucket code reads. -/
structure RateLimitConfig where
  requests_per_second : ℕ
  burst_size : ℕ
deriving DecidableEq

/-- Mirror of `RateLimiter`: the `HashMap<String, TokenBucket>` becomes an
association list. -/
structure RateLimiter where
  buckets : List (String × TokenBucket)
  config : RateLimitConfig

/-- Key lookup in the bucket map. -/
def lookup_bucket (buckets : List (String × TokenBucket)) (key : String) :
    Option TokenBucket :=
  (buckets.find? (fun p => p.1 = key)).map (·.2)

/-- Store a bucket under a key: replace the existing entry, else append. -/
def set_bucket (buckets : List (String × TokenBucket)) (key : String)
    (b : TokenBucket) : List (String × TokenBucket) :=
  if (buckets.find? (fun p => p.1 = key)).isSome then
    buckets.map (fun p => if p.1 = key then (key, b) else p)
  else buckets ++ [(key, b)]

/-- `RateLimiter::is_allowed_n`: `entry(key).or_insert_with(TokenBucket::new)`
followed by `try_consume`. -/
def is_allowed_n (rl : RateLimiter) (key : String) (tokens now : ℚ) :
    Bool × RateLimiter :=
  let bucket :=
    (lookup_bucket rl.buckets key).getD
      (TokenBucket.new (rl.config.burst_size : ℚ)
        (rl.config.requests_per_second : ℚ) now)
  let consumed := bucket.try_consume now tokens
  (consumed.1, { rl with buckets := set_bucket rl.buckets key consumed.2 })

/-- `RateLimiter::is_allowed`. -/
def is_allowed (rl : RateLimiter) (key : String) (now : ℚ) :
    Bool × RateLimiter :=
  is_allowed_n rl key 1 now

/-- `RateLimiter::get_remaining_tokens`: a read-only lookup; a missing key
reports a full bucket. -/
def get_remaining_tokens (rl : RateLimiter) (key : String) : ℚ :=
  ((lookup_bucket rl.buckets key).map (·.tokens)).getD
    (rl.config.burst_size : ℚ)

/-- `RateLimiter::reset_bucket`: removes the key. -/
def reset_bucket (rl : RateLimiter) (key : String) : RateLimiter :=
  { rl with buckets := rl.buckets.filter (fun p => p.1 ≠ key) }

/-- `RateLimiter::cleanup_expired_buckets`: retain buckets refilled within the
last 300 seconds. -/
def cleanup_expired_buckets (rl : RateLimiter) (now : ℚ) : RateLimiter :=
  { rl with
    buckets := rl.buckets.filter (fun p => max (now - p.2.last_refill) 0 < 300) }

/-- Mirror of `HealthStatus` in `health_checker.rs`. -/
structure HealthStatus where
  endpoint : String
  is_healthy : Bool
  last_check : ℕ
  response_time_ms : ℕ
  consecutive_failures : ℕ
  consecutive_successes : ℕ
deriving DecidableEq

/-- `mark_endpoint_unhealthy` in `health_checker.rs`: mutates the entry only
when the endpoint is already present in the map (`get_mut`), otherwise the map
is left untouched. -/
def mark_endpoint_unhealthy (status_map : String → Option HealthStatus)
    (endpoint : String) : String → Option HealthStatus :=
  match status_map endpoint with
  | some status =>
      fun e =>
        if e = endpoint then
          some { status with
                 is_healthy := false
                 consecutive_failures := status.consecutive_failures + 1
                 consecutive_successes := 0 }
        else status_map e
  | none => status_map

/-- `is_endpoint_healthy` in `health_checker.rs`: absent endpoints are
presumed healthy (`unwrap_or(true)`). -/
def is_endpoint_healthy (status_map : String → Option HealthStatus)
    (endpoint : String) : Bool :=
  ((status_map endpoint).map (·.is_healthy)).getD true

/-- Rust `str::split('/')` on a list of characters: always returns at least
one (possibly empty) segment, and a separator ends the current segment. -/
def splitOnChar (c : Char) : List Char → List (List Char)
  | [] => [[]]
  | x :: xs =>
    match splitOnChar c xs with
    | [] => [[x]]
    | h :: t => if x = c then [] :: h :: t else (x :: h) :: t

/-- The `match parts[0]` body of `extract_service_name`: `"api"` with a second
segment maps to `service-{second}`, everything else to `service-a` (the
`is_empty` branch returning `"default"` is unreachable because `split` always
yields a segment). -/
def extract_from_parts : List (List Char) → String
  | [] => "default"
  | p0 :: rest =>
    if p0 = "api".toList then
      match rest with
      | p1 :: _ => "service-" ++ String.mk p1
      | [] => "service-a"
    else "service-a"

/-- `extract_service_name` in `proxy.rs`: trim leading `'/'`, split on `'/'`,
dispatch on the first segment. -/
def extract_service_name (path : String) : String :=
  extract_from_parts (splitOnChar '/' (path.toList.dropWhile (· = '/')))

/-- The routing skeleton of `handle_request` in `proxy.rs`, over an abstract
dispatcher state `σ`: the short-circuit routes answer without touching state,
an unknown service answers 404 without touching state, and a configured
service hands over to `proxy_fn` (the abstraction of `proxy_request`).
The admin handler answers 200 on its two known paths and 404 otherwise, in
all cases without touching state. -/
def handle_request {σ : Type} (services : List String)
    (proxy_fn : String → σ → ℕ × σ) (path : String) (st : σ) : ℕ × σ :=
  if path = "/health" then (200, st)
  else if path = "/metrics" then (200, st)
  else if "/admin".toList.isPrefixOf path.toList then
    (if path = "/admin/health" ∨ path = "/admin/status" then 200 else 404, st)
  else
    let service_name := extract_service_name path
    if service_name ∈ services then proxy_fn service_name st
    else (404, st)

/-- The upstream call outcome seen by `proxy_request`: a response with a
status code, or a transport failure. -/
inductive UpstreamResult where
  | ok (status : ℕ)
  | transport_failure
deriving DecidableEq

/-- `http::StatusCode::is_success`: true exactly for `200..=299`. -/
def status_is_success (status : ℕ) : Bool :=
  decide (200 ≤ status ∧ status < 300)

/-- The `(status_code, success)` classification in `proxy_request`: a response
keeps its status and is a success iff `status.is_success()`; a transport
failure becomes a synthetic 503 with `success = false`. -/
def classify_outcome : UpstreamResult → ℕ × Bool
  | .ok status => (status, status_is_success status)
  | .transport_failure => (503, false)

/-- The circuit-breaker recording step at the end of `proxy_request`:
`record_success` when the outcome was classified a success, else
`record_failure`. -/
def breaker_after_outcome (cb : CircuitBreaker) (now : ℚ)
    (result : UpstreamResult) : CircuitBreaker :=
  if (classify_outcome result).2 then record_success cb
  else record_failure cb now

/-- The invariant of claim C6 on a health record. -/
def HealthInv (h : ServiceHealth) : Prop :=
  h.error_count ≤ h.total_requests ∧
  (0 < h.total_requests →
    h.success_rate = 1 - (h.error_count : ℚ) / (h.total_requests : ℚ))

/-- The invariant of claim C7 on one token bucket. -/
def BucketInv (b : TokenBucket) : Prop :=
  0 ≤ b.tokens ∧ b.tokens ≤ b.capacity

/-- The invariant of claim C7 over the whole bucket map. -/
def LimiterInv (rl : RateLimiter) : Prop :=
  ∀ p ∈ rl.buckets, BucketInv p.2

theorem record_request_history_length_le (history : List RequestMetrics)
    (metrics : RequestMetrics) (h : history.length ≤ 10000) :
    (record_request_history history metrics).length ≤ 10000 := by
  simp only [record_request_history]
  split
  · simp only [List.length_drop, List.length_append, List.length_cons,
      List.length_nil]
    omega
  · next h1 => omega

theorem foldl_record_request_length_le (ms : List RequestMetrics) :
    ∀ st : AIEngineState, st.request_history.length ≤ 10000 →
      (ms.foldl record_request st).request_history.length ≤ 10000 := by
  induction ms with
  | nil => intro st h; exact h
  | cons m ms ih =>
      intro st h
      exact ih (record_request st m) (record_request_history_length_le _ _ h)

/-- Claim C10: each `record_request` call keeps the stored request history at
no more than 10000 entries (one entry is appended, and the oldest 1000 are
dropped whenever the length exceeds 10000), so the buffer stays bounded along
any sequence of recorded requests starting from a fresh engine. -/
theorem c10_request_history_bounded (st : AIEngineState)
    (metrics : RequestMetrics) (h : st.request_history.length ≤ 10000) :
    (record_request st metrics).request_history.length ≤ 10000 ∧
    ∀ ms : List RequestMetrics,
      (ms.foldl record_request AIEngine.new).request_history.length ≤ 10000 := by
  constructor
  · exact record_request_history_length_le _ _ h
  · intro ms
    exact foldl_record_request_length_le ms AIEngine.new (by simp [AIEngine.new])

/-- Witness for C10 at a fresh engine and a concrete request record. -/
theorem c10_witness :
    AIEngine.new.request_history.length ≤ 10000 ∧
    (record_request AIEngine.new ⟨100, 200, "a", 7, true⟩).request_history.length
      ≤ 10000 :=
  ⟨by simp [AIEngine.new],
   (c10_request_history_bounded AIEngine.new ⟨100, 200, "a", 7, true⟩
      (by simp [AIEngine.new])).1⟩

/-- Counterexample to claim C1: a 404 upstream response is *not* recorded as
a success for the circuit breaker — `status.is_success()` holds only for 2xx,
so the dispatcher records a breaker failure on a 4xx response. -/
theorem c1_counterexample :
    status_is_success 404 = false ∧
    breaker_after_outcome (CircuitBreaker.new 5) 0 (.ok 404) =
      record_failure (CircuitBreaker.new 5) 0 ∧
    breaker_after_outcome (CircuitBreaker.new 5) 0 (.ok 404) ≠
      record_success (CircuitBreaker.new 5) := by
  exact ⟨by decide, by decide, by decide⟩

/-- Claim C1 as amended: for every completed upstream attempt, a 2xx upstream
response is recorded as a success for the circuit breaker, and a 3xx, 4xx or
5xx response, as well as an upstream transport failure, is recorded as a
failure. -/
theorem c1_breaker_success_rule (cb : CircuitBreaker) (now : ℚ) :
    (∀ status : ℕ, 200 ≤ status → status < 300 →
      breaker_after_outcome cb now (.ok status) = record_success cb) ∧
    (∀ status : ℕ, status < 200 ∨ 300 ≤ status →
      breaker_after_outcome cb now (.ok status) = record_failure cb now) ∧
    breaker_after_outcome cb now .transport_failure = record_failure cb now := by
  refine ⟨?_, ?_, rfl⟩
  · intro s h1 h2
    simp [breaker_after_outcome, classify_outcome, status_is_success, h1, h2]
  · intro s h
    have hns : ¬ (200 ≤ s ∧ s < 300) := by omega
    simp [breaker_after_outcome, classify_outcome, status_is_success, hns]

/-- Witness for C1 on concrete status codes 204, 404 and a transport failure. -/
theorem c1_witness :
    (200 ≤ 204 ∧ 204 < 300) ∧ (404 < 200 ∨ 300 ≤ 404) ∧
    breaker_after_outcome (CircuitBreaker.new 5) 0 (.ok 204) =
      record_success (CircuitBreaker.new 5) ∧
    breaker_after_outcome (CircuitBreaker.new 5) 0 (.ok 404) =
      record_failure (CircuitBreaker.new 5) 0 ∧
    breaker_after_outcome (CircuitBreaker.new 5) 0 .transport_failure =
      record_failure (CircuitBreaker.new 5) 0 :=
  ⟨by decide, by decide,
   (c1_breaker_success_rule (CircuitBreaker.new 5) 0).1 204 (by decide) (by decide),
   (c1_breaker_success_rule (CircuitBreaker.new 5) 0).2.1 404 (by decide),
   (c1_breaker_success_rule (CircuitBreaker.new 5) 0).2.2⟩

/-- Counterexample to claim C3: from `HalfOpen` with `last_failure_time` at
time 0, recording a failure at time 100 transitions to `Open` but leaves
`last_failure_time` at 0, not at the current time. -/
theorem c3_counterexample :
    (record_failure
      { state := .HalfOpen, failure_count := 2, success_count := 1,
        last_failure_time := some 0, failure_threshold := 5, timeout := 60,
        half_open_max_calls := 5, half_open_success_threshold := 3 } 100).state
      = .Open ∧
    (record_failure
      { state := .HalfOpen, failure_count := 2, success_count := 1,
        last_failure_time := some 0, failure_threshold := 5, timeout := 60,
        half_open_max_calls := 5, half_open_success_threshold := 3 } 100).last_failure_time
      = some 0 ∧
    some (0 : ℚ) ≠ some (100 : ℚ) := by
  exact ⟨by decide, by decide, by decide⟩

/-- Claim C3 as amended: a failure recorded in `HalfOpen` transitions the
breaker to `Open`, but `last_failure_time` is left unchanged (the `HalfOpen`
branch of `record_failure` does not write it; only the `Closed` and `Open`
branches do). -/
theorem c3_half_open_failure_reopens (cb : CircuitBreaker) (now : ℚ)
    (h : cb.state = .HalfOpen) :
    (record_failure cb now).state = .Open ∧
    (record_failure cb now).last_failure_time = cb.last_failure_time := by
  obtain ⟨s, fc, sc, lft, thr, tmo, hmax, hthr⟩ := cb
  simp only [CircuitBreaker.state] at h
  subst h
  simp [record_failure, transition_to_open]

/-- Witness for C3 at a concrete `HalfOpen` breaker. -/
theorem c3_witness :
    ({ state := .HalfOpen, failure_count := 0, success_count := 2,
       last_failure_time := some 7, failure_threshold := 4, timeout := 60,
       half_open_max_calls := 5, half_open_success_threshold := 3 } :
        CircuitBreaker).state = .HalfOpen ∧
    (record_failure
      { state := .HalfOpen, failure_count := 0, success_count := 2,
        last_failure_time := some 7, failure_threshold := 4, timeout := 60,
        half_open_max_calls := 5, half_open_success_threshold := 3 } 9).state
      = .Open ∧
    (record_failure
      { state := .HalfOpen, failure_count := 0, success_count := 2,
        last_failure_time := some 7, failure_threshold := 4, timeout := 60,
        half_open_max_calls := 5, half_open_success_threshold := 3 } 9).last_failure_time
      = some 7 :=
  ⟨rfl,
   (c3_half_open_failure_reopens
     { state := .HalfOpen, failure_count := 0, success_count := 2,
       last_failure_time := some 7, failure_threshold := 4, timeout := 60,
       half_open_max_calls := 5, half_open_success_threshold := 3 } 9 rfl).1,
   (c3_half_open_failure_reopens
     { state := .HalfOpen, failure_count := 0, success_count := 2,
       last_failure_time := some 7, failure_threshold := 4, timeout := 60,
       half_open_max_calls := 5, half_open_success_threshold := 3 } 9 rfl).2⟩

/-- Counterexample to claim C8: `mark_endpoint_unhealthy` is a no-op for an
endpoint with no entry in the status map, and `is_endpoint_healthy` then still
returns `true` (absent endpoints are presumed healthy). -/
theorem c8_counterexample :
    mark_endpoint_unhealthy (fun _ => none) "a" = (fun _ => none) ∧
    is_endpoint_healthy (mark_endpoint_unhealthy (fun _ => none) "a") "a"
      = true := by
  exact ⟨rfl, rfl⟩

/-- Claim C8 as amended: for every endpoint *present in the status map*,
`mark_endpoint_unhealthy` sets its healthy flag to false, increments its
consecutive-failure run and resets the consecutive-success run, so a
subsequent `is_endpoint_healthy` returns false. -/
theorem c8_mark_unhealthy_present (status_map : String → Option HealthStatus)
    (endpoint : String) (st : HealthStatus)
    (h : status_map endpoint = some st) :
    mark_endpoint_unhealthy status_map endpoint endpoint =
      some { st with
             is_healthy := false
             consecutive_failures := st.consecutive_failures + 1
             consecutive_successes := 0 } ∧
    is_endpoint_healthy (mark_endpoint_unhealthy status_map endpoint) endpoint
      = false := by
  unfold mark_endpoint_unhealthy
  rw [h]
  simp [is_endpoint_healthy]

/-- Witness for C8 at a concrete one-entry status map. -/
theorem c8_witness :
    (fun e => if e = "a" then some (⟨"a", true, 3, 20, 0, 2⟩ : HealthStatus)
      else none) "a" = some (⟨"a", true, 3, 20, 0, 2⟩ : HealthStatus) ∧
    is_endpoint_healthy
      (mark_endpoint_unhealthy
        (fun e => if e = "a" then some (⟨"a", true, 3, 20, 0, 2⟩ : HealthStatus)
          else none) "a") "a" = false :=
  ⟨by simp,
   (c8_mark_unhealthy_present
     (fun e => if e = "a" then some (⟨"a", true, 3, 20, 0, 2⟩ : HealthStatus)
       else none) "a" ⟨"a", true, 3, 20, 0, 2⟩ (by simp)).2⟩

theorem fresh_health_inv (endpoint : String) (timestamp : ℕ) :
    HealthInv (fresh_health endpoint timestamp) := by
  simp [HealthInv, fresh_health]

theorem update_health_record_inv (health : ServiceHealth)
    (metrics : RequestMetrics) (h : HealthInv health) :
    HealthInv (update_health_record health metrics) := by
  obtain ⟨h1, _⟩ := h
  constructor
  · by_cases hs : metrics.success <;>
      simp [update_health_record, hs] <;> omega
  · intro _
    by_cases hs : metrics.success <;> simp [update_health_record, hs]

/-- Claim C6: `errors ≤ total`, and for `total > 0` the success rate equals
`1 − errors/total` (exactly, in the rational model, hence within 1e−9), holds
for every record produced by a health update — and every update, whether
driven by a real request outcome or by a probe, goes through
`update_service_health`. -/
theorem c6_health_update_invariant (store : String → Option ServiceHealth)
    (metrics : RequestMetrics)
    (hstore : ∀ e h, store e = some h → HealthInv h) :
    ∀ e h, update_service_health store metrics e = some h → HealthInv h := by
  intro e h
  unfold update_service_health
  by_cases he : e = metrics.endpoint
  · subst he
    intro hh
    rw [if_pos rfl] at hh
    have hh2 := Option.some.inj hh
    subst hh2
    apply update_health_record_inv
    cases hcur : store metrics.endpoint with
    | none =>
        simpa [hcur] using fresh_health_inv metrics.endpoint metrics.timestamp
    | some cur => simpa [hcur] using hstore _ _ hcur
  · simp only [if_neg he]
    exact hstore e h

/-- Witness for C6: updating an empty store with a concrete request record. -/
theorem c6_witness :
    (∀ e h, (fun _ => none : String → Option ServiceHealth) e = some h →
      HealthInv h) ∧
    (∀ e h,
      update_service_health (fun _ => none) ⟨120, 503, "a", 7, false⟩ e = some h →
      HealthInv h) :=
  ⟨fun _ _ hsome => Option.noConfusion hsome,
   c6_health_update_invariant (fun _ => none) ⟨120, 503, "a", 7, false⟩
     (fun _ _ hsome => Option.noConfusion hsome)⟩

/-- Claim C9: path-to-service resolution maps a first segment `api` with a
second segment `x` to `service-{x}` and every other path to `service-a`
(checked both on segment lists and on the spec's literal examples), and a
path resolving to an unconfigured service is answered 404 by the dispatcher
with no state change (no circuit-breaker or health update: `proxy_fn`, the
abstraction of `proxy_request`, is never invoked). -/
theorem c9_routing_resolution :
    (∀ (x : List Char) (rest : List (List Char)),
      extract_from_parts ("api".toList :: x :: rest) = "service-" ++ String.mk x) ∧
    (∀ (p0 : List Char) (rest : List (List Char)),
      (p0 = "api".toList → rest = []) →
      extract_from_parts (p0 :: rest) = "service-a") ∧
    extract_service_name "/api/b/foo" = "service-b" ∧
    extract_service_name "/xyz" = "service-a" ∧
    (∀ (σ : Type) (services : List String) (proxy_fn : String → σ → ℕ × σ)
      (path : String) (st : σ),
      path ≠ "/health" → path ≠ "/metrics" →
      ¬ ("/admin".toList.isPrefixOf path.toList) →
      extract_service_name path ∉ services →
      handle_request services proxy_fn path st = (404, st)) := by
  refine ⟨?_, ?_, by decide, by decide, ?_⟩
  · intro x rest
    simp [extract_from_parts]
  · intro p0 rest hcase
    by_cases hp0 : p0 = "api".toList
    · have : rest = [] := hcase hp0
      subst this
      simp [extract_from_parts, hp0]
    · simp [extract_from_parts, hp0]
      intro h
      exact absurd h hp0
  · intro σ services proxy_fn path st h1 h2 h3 h4
    unfold handle_request
    rw [if_neg h1, if_neg h2, if_neg (by simpa using h3), if_neg h4]

/-- Witness for C9: the concrete path `/api/zzz/x` resolves to `service-zzz`,
which is absent from a config knowing only `service-a`, so the dispatcher
answers 404 leaving the (unit) state untouched. -/
theorem c9_witness :
    extract_from_parts ("api".toList :: "b".toList :: []) =
      "service-" ++ String.mk "b".toList ∧
    handle_request ["service-a"] (fun _ (st : Unit) => (200, st)) "/api/zzz/x" ()
      = (404, ()) :=
  ⟨c9_routing_resolution.1 "b".toList [],
   c9_routing_resolution.2.2.2.2 Unit ["service-a"]
     (fun _ st => (200, st)) "/api/zzz/x" () (by decide) (by decide)
     (by decide) (by decide)⟩

theorem record_failure_closed_below (cb : CircuitBreaker) (t : ℚ)
    (hstate : cb.state = .Closed)
    (hlt : cb.failure_count + 1 < cb.failure_threshold) :
    record_failure cb t =
      { cb with
        failure_count := cb.failure_count + 1
        last_failure_time := some t } := by
  obtain ⟨s, fc, sc, lft, thr, tmo, hmoc, hhst⟩ := cb
  simp only [CircuitBreaker.state] at hstate
  subst hstate
  simp only [CircuitBreaker.failure_count, CircuitBreaker.failure_threshold]
    at hlt
  simp only [record_failure]
  rw [if_neg (by omega)]

theorem record_failures_open (ts : List ℚ) :
    ∀ cb : CircuitBreaker, cb.state = .Closed →
    cb.failure_count + ts.length = cb.failure_threshold →
    ∀ hne : ts ≠ [],
    (ts.foldl record_failure cb).state = .Open ∧
    (ts.foldl record_failure cb).last_failure_time = some (ts.getLast hne) ∧
    (ts.foldl record_failure cb).timeout = cb.timeout := by
  induction ts with
  | nil => intro cb _ _ hne; exact absurd rfl hne
  | cons t ts ih =>
    intro cb hstate hcount hne
    by_cases hts : ts = []
    · subst hts
      obtain ⟨s, fc, sc, lft, thr, tmo, hmoc, hhst⟩ := cb
      simp only [CircuitBreaker.state] at hstate
      subst hstate
      simp only [List.length_cons, List.length_nil,
        CircuitBreaker.failure_count, CircuitBreaker.failure_threshold]
        at hcount
      simp only [List.foldl_cons, List.foldl_nil, record_failure]
      rw [if_pos (by omega)]
      simp [transition_to_open, List.getLast]
    · have hlen1 : 0 < ts.length := List.length_pos.mpr hts
      have hlt : cb.failure_count + 1 < cb.failure_threshold := by
        simp only [List.length_cons] at hcount
        omega
      rw [List.foldl_cons, record_failure_closed_below cb t hstate hlt]
      have hres := ih
        { cb with
          failure_count := cb.failure_count + 1
          last_failure_time := some t }
        hstate (by simp only [List.length_cons] at hcount; simpa using by omega)
        hts
      refine ⟨hres.1, ?_, hres.2.2⟩
      rw [List.getLast_cons hts]
      exact hres.2.1

theorem is_open_of_open_before (cb : CircuitBreaker) (now : ℚ)
    (hs : cb.state = .Open) (hr : should_attempt_reset cb now = false) :
    is_open cb now = (true, cb) := by
  obtain ⟨s, fc, sc, lft, thr, tmo, hmoc, hhst⟩ := cb
  simp only [CircuitBreaker.state] at hs
  subst hs
  simp [is_open, hr]

theorem is_open_of_open_elapsed (cb : CircuitBreaker) (now : ℚ)
    (hs : cb.state = .Open) (hr : should_attempt_reset cb now = true) :
    is_open cb now = (false, transition_to_half_open cb) := by
  obtain ⟨s, fc, sc, lft, thr, tmo, hmoc, hhst⟩ := cb
  simp only [CircuitBreaker.state] at hs
  subst hs
  simp [is_open, hr]

theorem is_open_of_half_open (cb : CircuitBreaker) (now : ℚ)
    (hs : cb.state = .HalfOpen) : is_open cb now = (false, cb) := by
  obtain ⟨s, fc, sc, lft, thr, tmo, hmoc, hhst⟩ := cb
  simp only [CircuitBreaker.state] at hs
  subst hs
  simp [is_open]

theorem transition_to_half_open_spec (cb : CircuitBreaker)
    (hs : cb.state = .Open) :
    (transition_to_half_open cb).state = .HalfOpen ∧
    (transition_to_half_open cb).success_count = 0 := by
  obtain ⟨s, fc, sc, lft, thr, tmo, hmoc, hhst⟩ := cb
  simp only [CircuitBreaker.state] at hs
  subst hs
  simp [transition_to_half_open]

theorem should_attempt_reset_eq (cb : CircuitBreaker) (now t : ℚ)
    (hl : cb.last_failure_time = some t) :
    should_attempt_reset cb now = decide (cb.timeout ≤ now - t) := by
  simp [should_attempt_reset, hl]

/-- Claim C4: from `Closed` with failure count 0, `failure_threshold`
consecutive recorded failures put the breaker in `Open`, and the next
`is_open()` probe (before the 60 s timeout has elapsed since the last failure)
returns true; once at least 60 s have elapsed since the last failure time,
`is_open()` returns false and transitions `Open → HalfOpen` with the half-open
success counter reset to 0, and the transition happens exactly once: a further
`is_open()` probe returns false and leaves the breaker unchanged. -/
theorem c4_breaker_threshold_and_reset (thr : ℕ) (ts : List ℚ)
    (now now2 now3 : ℚ) (hne : ts ≠ []) (hlen : ts.length = thr)
    (h_before : now - ts.getLast hne < 60)
    (h_after : 60 ≤ now2 - ts.getLast hne) :
    (is_open (ts.foldl record_failure (CircuitBreaker.new thr)) now).1 = true ∧
    (is_open (ts.foldl record_failure (CircuitBreaker.new thr)) now2).1 = false ∧
    ((is_open (ts.foldl record_failure (CircuitBreaker.new thr)) now2).2).state
      = .HalfOpen ∧
    ((is_open (ts.foldl record_failure (CircuitBreaker.new thr)) now2).2).success_count
      = 0 ∧
    (is_open ((is_open (ts.foldl record_failure (CircuitBreaker.new thr)) now2).2)
      now3).1 = false ∧
    (is_open ((is_open (ts.foldl record_failure (CircuitBreaker.new thr)) now2).2)
      now3).2 = (is_open (ts.foldl record_failure (CircuitBreaker.new thr)) now2).2 := by
  obtain ⟨hOpen, hLft, hTmo⟩ :=
    record_failures_open ts (CircuitBreaker.new thr) rfl
      (by simp [CircuitBreaker.new, hlen]) hne
  set cbF := ts.foldl record_failure (CircuitBreaker.new thr) with hcbF
  have htmo60 : cbF.timeout = 60 := by rw [hTmo]; rfl
  have hr1 : should_attempt_reset cbF now = false := by
    rw [should_attempt_reset_eq cbF now _ hLft, htmo60]
    exact decide_eq_false (not_le.mpr h_before)
  have hr2 : should_attempt_reset cbF now2 = true := by
    rw [should_attempt_reset_eq cbF now2 _ hLft, htmo60]
    exact decide_eq_true h_after
  have e1 := is_open_of_open_before cbF now hOpen hr1
  have e2 := is_open_of_open_elapsed cbF now2 hOpen hr2
  obtain ⟨hhs, hhsc⟩ := transition_to_half_open_spec cbF hOpen
  refine ⟨by rw [e1], by rw [e2], by rw [e2]; exact hhs, by rw [e2]; exact hhsc,
    ?_, ?_⟩
  · rw [e2, is_open_of_half_open _ now3 hhs]
  · rw [e2, is_open_of_half_open _ now3 hhs]

/-- Witness for C4: threshold 1, one failure at time 0, probes at 30 s
(still open), 70 s (half-open transition) and 90 s. -/
theorem c4_witness :
    (([(0 : ℚ)] : List ℚ) ≠ []) ∧ (([(0 : ℚ)] : List ℚ).length = 1) ∧
    ((30 : ℚ) - 0 < 60) ∧ ((60 : ℚ) ≤ 70 - 0) ∧
    (is_open ([(0 : ℚ)].foldl record_failure (CircuitBreaker.new 1)) 30).1
      = true ∧
    (is_open ([(0 : ℚ)].foldl record_failure (CircuitBreaker.new 1)) 70).1
      = false ∧
    ((is_open ([(0 : ℚ)].foldl record_failure (CircuitBreaker.new 1)) 70).2).state
      = .HalfOpen ∧
    ((is_open ([(0 : ℚ)].foldl record_failure (CircuitBreaker.new 1)) 70).2).success_count
      = 0 := by
  have h := c4_breaker_threshold_and_reset 1 [0] 30 70 90 (by simp) (by simp)
    (by show (30 : ℚ) - 0 < 60; norm_num)
    (by show (60 : ℚ) ≤ 70 - 0; norm_num)
  exact ⟨by simp, by simp, by norm_num, by norm_num,
    h.1, h.2.1, h.2.2.1, h.2.2.2.1⟩

theorem try_consume_inv (b : TokenBucket) (now n : ℚ) (hb : BucketInv b)
    (hr : 0 ≤ b.refill_rate) (hn : 0 ≤ n) :
    BucketInv (b.try_consume now n).2 := by
  obtain ⟨h0, hc⟩ := hb
  have hcap : 0 ≤ b.capacity := le_trans h0 hc
  have hadd : 0 ≤ max (now - b.last_refill) 0 * b.refill_rate :=
    mul_nonneg (le_max_right _ _) hr
  unfold TokenBucket.try_consume TokenBucket.refill
  simp only []
  set t := min (b.tokens + max (now - b.last_refill) 0 * b.refill_rate)
    b.capacity with ht
  have ht0 : 0 ≤ t := le_min (by linarith) hcap
  have htc : t ≤ b.capacity := min_le_right _ _
  by_cases hle : n ≤ t
  · rw [if_pos hle]
    exact ⟨by simpa using sub_nonneg.mpr hle,
      by simpa using le_trans (sub_le_self t hn) htc⟩
  · rw [if_neg hle]
    exact ⟨ht0, htc⟩

theorem set_bucket_mem (buckets : List (String × TokenBucket)) (key : String)
    (b : TokenBucket) :
    ∀ p ∈ set_bucket buckets key b, p.2 = b ∨ p ∈ buckets := by
  intro p hp
  unfold set_bucket at hp
  by_cases hfind : (buckets.find? (fun q => q.1 = key)).isSome
  · rw [if_pos hfind] at hp
    obtain ⟨q, hq, hpq⟩ := List.mem_map.mp hp
    by_cases h : q.1 = key
    · rw [if_pos h] at hpq
      left
      rw [← hpq]
    · rw [if_neg h] at hpq
      right
      rw [← hpq]
      exact hq
  · rw [if_neg hfind] at hp
    rcases List.mem_append.mp hp with h | h
    · right; exact h
    · left
      have : p = (key, b) := by simpa using h
      rw [this]

theorem lookup_bucket_mem (buckets : List (String × TokenBucket))
    (key : String) (b : TokenBucket) (h : lookup_bucket buckets key = some b) :
    ∃ q ∈ buckets, q.2 = b := by
  unfold lookup_bucket at h
  cases hfind : buckets.find? (fun q => q.1 = key) with
  | none => rw [hfind] at h; exact Option.noConfusion h
  | some q =>
      rw [hfind] at h
      exact ⟨q, List.mem_of_find?_eq_some hfind, Option.some.inj h⟩

/-- Claim C7: `0 ≤ tokens ≤ capacity` holds for every bucket in the map after
every state-changing operation — `is_allowed_n` (lazy refill then conditional
deduction, creating a full bucket on a missing key), `reset_bucket` and
`cleanup_expired_buckets` — given that it held before, that every stored
refill rate is nonnegative (rates are `u32` casts in the code) and that the
requested token count is nonnegative (`get_remaining_tokens` performs no
write, so there is nothing to preserve for it). -/
theorem c7_rate_limiter_invariant (rl : RateLimiter) (key : String)
    (n now : ℚ) (hinv : LimiterInv rl)
    (hrate : ∀ p ∈ rl.buckets, 0 ≤ p.2.refill_rate) (hn : 0 ≤ n) :
    LimiterInv (is_allowed_n rl key n now).2 ∧
    LimiterInv (reset_bucket rl key) ∧
    LimiterInv (cleanup_expired_buckets rl now) := by
  refine ⟨?_, ?_, ?_⟩
  · intro p hp
    unfold is_allowed_n at hp
    simp only [] at hp
    rcases set_bucket_mem rl.buckets key _ p hp with h | h
    · rw [h]
      set bucket := (lookup_bucket rl.buckets key).getD
        (TokenBucket.new (rl.config.burst_size : ℚ)
          (rl.config.requests_per_second : ℚ) now) with hbucket
      have hbinv : BucketInv bucket ∧ 0 ≤ bucket.refill_rate := by
        cases hlook : lookup_bucket rl.buckets key with
        | none =>
            rw [hbucket, hlook]
            exact ⟨⟨by simp [TokenBucket.new], by simp [TokenBucket.new]⟩,
              by simp [TokenBucket.new]⟩
        | some b0 =>
            obtain ⟨q, hq, hqb⟩ := lookup_bucket_mem rl.buckets key b0 hlook
            rw [hbucket, hlook]
            exact ⟨by rw [← hqb]; exact hinv q hq,
              by rw [← hqb]; exact hrate q hq⟩
      exact try_consume_inv bucket now n hbinv.1 hbinv.2 hn
    · exact hinv p h
  · intro p hp
    unfold reset_bucket at hp
    exact hinv p (List.mem_of_mem_filter hp)
  · intro p hp
    unfold cleanup_expired_buckets at hp
    exact hinv p (List.mem_of_mem_filter hp)

/-- Witness for C7: an empty limiter with burst 100 and rate 10, one allowed
request of one token at time 0. -/
theorem c7_witness :
    LimiterInv ⟨[], ⟨10, 100⟩⟩ ∧ ((0 : ℚ) ≤ 1) ∧
    LimiterInv (is_allowed_n ⟨[], ⟨10, 100⟩⟩ "k" 1 0).2 ∧
    LimiterInv (reset_bucket ⟨[], ⟨10, 100⟩⟩ "k") ∧
    LimiterInv (cleanup_expired_buckets ⟨[], ⟨10, 100⟩⟩ 0) := by
  have hempty : LimiterInv ⟨[], ⟨10, 100⟩⟩ := by
    intro p hp
    exact absurd hp (List.not_mem_nil p)
  have hrate : ∀ p ∈ (⟨[], ⟨10, 100⟩⟩ : RateLimiter).buckets,
      0 ≤ p.2.refill_rate := by
    intro p hp
    exact absurd hp (List.not_mem_nil p)
  have h := c7_rate_limiter_invariant ⟨[], ⟨10, 100⟩⟩ "k" 1 0 hempty hrate
    (by decide)
  exact ⟨hempty, by decide, h.1, h.2.1, h.2.2⟩

theorem rust_max_by_aux_spec (l : List (String × ℚ)) :
    ∀ a : String × ℚ,
      rust_max_by_aux a l ∈ a :: l ∧
      ∀ y ∈ a :: l, y.2 ≤ (rust_max_by_aux a l).2 := by
  induction l with
  | nil =>
      intro a
      refine ⟨List.mem_singleton.mpr rfl, ?_⟩
      intro y hy
      rw [List.mem_singleton.mp hy]
      exact le_refl _
  | cons x xs ih =>
      intro a
      simp only [rust_max_by_aux]
      obtain ⟨hmem, hall⟩ := ih (if a.2 ≤ x.2 then x else a)
      constructor
      · rcases List.mem_cons.mp hmem with h | h
        · rw [h]
          by_cases hc : a.2 ≤ x.2
          · rw [if_pos hc]
            exact List.mem_cons_of_mem _ (List.mem_cons_self _ _)
          · rw [if_neg hc]
            exact List.mem_cons_self _ _
        · exact List.mem_cons_of_mem _ (List.mem_cons_of_mem _ h)
      · intro y hy
        have hax : a.2 ≤ (if a.2 ≤ x.2 then x else a).2 := by
          by_cases hc : a.2 ≤ x.2
          · rw [if_pos hc]; exact hc
          · rw [if_neg hc]
        have hxx : x.2 ≤ (if a.2 ≤ x.2 then x else a).2 := by
          by_cases hc : a.2 ≤ x.2
          · rw [if_pos hc]
          · rw [if_neg hc]; exact le_of_not_le hc
        have hhead := hall _ (List.mem_cons_self (if a.2 ≤ x.2 then x else a) xs)
        rcases List.mem_cons.mp hy with h | h
        · rw [h]; exact le_trans hax hhead
        · rcases List.mem_cons.mp h with h2 | h2
          · rw [h2]; exact le_trans hxx hhead
          · exact hall y (List.mem_cons_of_mem _ h2)

theorem select_endpoint_selected_eq (store : String → Option ServiceHealth)
    (o : String) (os : List String) (a : String) (as : List String) :
    (select_endpoint store (o :: os) (a :: as)).selected_endpoint =
      (rust_max_by_aux (o, endpoint_score store o)
        (os.map (fun e => (e, endpoint_score store e)))).1 := by
  simp [select_endpoint, rust_max_by]

theorem select_endpoint_spec (store : String → Option ServiceHealth)
    (iteration_order available_endpoints : List String)
    (hne : available_endpoints ≠ [])
    (hperm : iteration_order.Perm available_endpoints.dedup) :
    (select_endpoint store iteration_order available_endpoints).selected_endpoint
      ∈ available_endpoints ∧
    ∀ e ∈ available_endpoints,
      endpoint_score store e ≤ endpoint_score store
        (select_endpoint store iteration_order available_endpoints).selected_endpoint := by
  have hdne : available_endpoints.dedup ≠ [] :=
    fun h => hne ((List.dedup_eq_nil _).mp h)
  have horder : iteration_order ≠ [] := by
    intro h
    subst h
    exact hdne hperm.symm.eq_nil
  obtain ⟨o, os, rfl⟩ := List.exists_cons_of_ne_nil horder
  obtain ⟨a, as, rfl⟩ := List.exists_cons_of_ne_nil hne
  rw [select_endpoint_selected_eq store o os a as]
  obtain ⟨hmem, hmax⟩ :=
    rust_max_by_aux_spec (os.map (fun e => (e, endpoint_score store e)))
      (o, endpoint_score store o)
  have hform : ∀ p ∈ (o, endpoint_score store o) ::
      os.map (fun e => (e, endpoint_score store e)),
      p = (p.1, endpoint_score store p.1) ∧ p.1 ∈ o :: os := by
    intro p hp
    rcases List.mem_cons.mp hp with h | h
    · rw [h]; exact ⟨rfl, List.mem_cons_self _ _⟩
    · obtain ⟨e, he, hep⟩ := List.mem_map.mp h
      rw [← hep]
      exact ⟨rfl, List.mem_cons_of_mem _ he⟩
  obtain ⟨hbeq, hbin⟩ := hform _ hmem
  have hmem_avail :
      (rust_max_by_aux (o, endpoint_score store o)
        (os.map (fun e => (e, endpoint_score store e)))).1 ∈ a :: as :=
    List.mem_dedup.mp (hperm.mem_iff.mp hbin)
  refine ⟨hmem_avail, ?_⟩
  intro e he
  have he_order : e ∈ o :: os := hperm.mem_iff.mpr (List.mem_dedup.mpr he)
  have hpe : (e, endpoint_score store e) ∈ (o, endpoint_score store o) ::
      os.map (fun e => (e, endpoint_score store e)) := by
    rcases List.mem_cons.mp he_order with h | h
    · rw [h]; exact List.mem_cons_self _ _
    · exact List.mem_cons_of_mem _ (List.mem_map.mpr ⟨e, h, rfl⟩)
  have hle := hmax _ hpe
  have hb2 : (rust_max_by_aux (o, endpoint_score store o)
      (os.map (fun e => (e, endpoint_score store e)))).2 =
      endpoint_score store (rust_max_by_aux (o, endpoint_score store o)
        (os.map (fun e => (e, endpoint_score store e)))).1 := by
    conv_lhs => rw [hbeq]
  rw [hb2] at hle
  exact hle

/-- Counterexample to claim C2: with no health history both endpoints score
`0.5`; under the admissible score-map iteration order `["a", "b"]` the
selector returns `"b"` — Rust's `max_by` keeps the *last* maximal element of
the (unordered) `HashMap` iteration, not the first endpoint of the input
list. -/
theorem c2_counterexample :
    (["a", "b"] : List String).Perm ((["a", "b"] : List String).dedup) ∧
    endpoint_score (fun _ => none) "a" = endpoint_score (fun _ => none) "b" ∧
    (select_endpoint (fun _ => none) ["a", "b"] ["a", "b"]).selected_endpoint
      = "b" ∧
    "b" ≠ "a" := by
  refine ⟨by decide, rfl, ?_, by decide⟩
  simp [select_endpoint, rust_max_by, rust_max_by_aux, endpoint_score]

/-- Claim C2 as amended: for every select call with a non-empty endpoint list
(and any admissible iteration order of the internal score map, i.e. any
permutation of the distinct input endpoints), the chosen endpoint belongs to
the input list and attains the maximum score; when several endpoints share
the maximum the choice falls on the last maximal entry of the unspecified
map iteration order, not on the first of the input list. -/
theorem c2_selected_attains_max (store : String → Option ServiceHealth)
    (iteration_order available_endpoints : List String)
    (hne : available_endpoints ≠ [])
    (hperm : iteration_order.Perm available_endpoints.dedup) :
    (select_endpoint store iteration_order available_endpoints).selected_endpoint
      ∈ available_endpoints ∧
    ∀ e ∈ available_endpoints,
      endpoint_score store e ≤ endpoint_score store
        (select_endpoint store iteration_order available_endpoints).selected_endpoint :=
  select_endpoint_spec store iteration_order available_endpoints hne hperm

/-- Witness for C2 on two endpoints with opposite iteration order. -/
theorem c2_witness :
    ((["a", "b"] : List String) ≠ []) ∧
    (["b", "a"] : List String).Perm ((["a", "b"] : List String).dedup) ∧
    (select_endpoint (fun _ => none) ["b", "a"] ["a", "b"]).selected_endpoint
      ∈ (["a", "b"] : List String) ∧
    ∀ e ∈ (["a", "b"] : List String),
      endpoint_score (fun _ => none) e ≤ endpoint_score (fun _ => none)
        (select_endpoint (fun _ => none) ["b", "a"] ["a", "b"]).selected_endpoint :=
  ⟨by decide, by decide,
   (c2_selected_attains_max (fun _ => none) ["b", "a"] ["a", "b"]
     (by decide) (by decide)).1,
   (c2_selected_attains_max (fun _ => none) ["b", "a"] ["a", "b"]
     (by decide) (by decide)).2⟩

theorem filter_map_fst (l : List String) (g : String → ℚ) (b : String) :
    ((l.map (fun e => (e, g e))).filter (fun p => p.1 ≠ b)).map (·.1)
      = l.filter (fun e => e ≠ b) := by
  induction l with
  | nil => rfl
  | cons x xs ih =>
      simp only [ne_eq, decide_not] at ih ⊢
      by_cases h : x = b <;> simp [List.filter_cons, h, ih]

theorem select_endpoint_fallback_eq (store : String → Option ServiceHealth)
    (o : String) (os : List String) (a : String) (as : List String) :
    (select_endpoint store (o :: os) (a :: as)).fallback_endpoints =
      ((((o :: os).map (fun e => (e, endpoint_score store e))).filter
        (fun p => p.1 ≠ (rust_max_by_aux (o, endpoint_score store o)
          (os.map (fun e => (e, endpoint_score store e)))).1)).mergeSort
        (fun p q => decide (q.2 ≤ p.2))).map (·.1) := by
  simp [select_endpoint, rust_max_by]

/-- Counterexample to claim C5: on the duplicated input `["a", "a"]` the score
map has the single key `"a"`, the selector returns `"a"` with an empty
fallback list, which is not a permutation of the remaining input endpoints
`["a"]`. -/
theorem c5_counterexample :
    (["a"] : List String).Perm ((["a", "a"] : List String).dedup) ∧
    (select_endpoint (fun _ => none) ["a"] ["a", "a"]).selected_endpoint
      = "a" ∧
    (select_endpoint (fun _ => none) ["a"] ["a", "a"]).fallback_endpoints
      = [] ∧
    ¬ ((select_endpoint (fun _ => none) ["a"] ["a", "a"]).fallback_endpoints).Perm
        ((["a", "a"] : List String).erase
          (select_endpoint (fun _ => none) ["a"] ["a", "a"]).selected_endpoint) := by
  have hsel :
      (select_endpoint (fun _ => none) ["a"] ["a", "a"]).selected_endpoint
        = "a" := by
    simp [select_endpoint, rust_max_by, rust_max_by_aux, endpoint_score]
  have hfb :
      (select_endpoint (fun _ => none) ["a"] ["a", "a"]).fallback_endpoints
        = [] := by
    simp [select_endpoint, rust_max_by, rust_max_by_aux, endpoint_score]
  refine ⟨by decide, hsel, hfb, ?_⟩
  rw [hsel, hfb]
  decide

/-- Claim C5 as amended: for every select call on a non-empty list of
*distinct* endpoints (and any admissible iteration order of the score map),
the returned endpoint is a member of the input list, and the fallback list is
a permutation of the remaining input endpoints, sorted by descending score. -/
theorem c5_membership_and_fallback (store : String → Option ServiceHealth)
    (iteration_order available_endpoints : List String)
    (hnd : available_endpoints.Nodup) (hne : available_endpoints ≠ [])
    (hperm : iteration_order.Perm available_endpoints.dedup) :
    (select_endpoint store iteration_order available_endpoints).selected_endpoint
      ∈ available_endpoints ∧
    (select_endpoint store iteration_order available_endpoints).fallback_endpoints.Perm
      (available_endpoints.erase
        (select_endpoint store iteration_order available_endpoints).selected_endpoint) ∧
    (select_endpoint store iteration_order available_endpoints).fallback_endpoints.Pairwise
      (fun x y => endpoint_score store y ≤ endpoint_score store x) := by
  refine ⟨(select_endpoint_spec store iteration_order available_endpoints
    hne hperm).1, ?_, ?_⟩
  all_goals
    have hdne : available_endpoints.dedup ≠ [] :=
      fun h => hne ((List.dedup_eq_nil _).mp h)
    have horder : iteration_order ≠ [] := by
      intro h
      subst h
      exact hdne hperm.symm.eq_nil
    obtain ⟨o, os, rfl⟩ := List.exists_cons_of_ne_nil horder
    obtain ⟨a, as, rfl⟩ := List.exists_cons_of_ne_nil hne
    rw [select_endpoint_fallback_eq store o os a as]
    try rw [select_endpoint_selected_eq store o os a as]
  · -- the fallback list is a permutation of the remaining endpoints
    have h1 := (List.mergeSort_perm
      (((o :: os).map (fun e => (e, endpoint_score store e))).filter
        (fun p => p.1 ≠ (rust_max_by_aux (o, endpoint_score store o)
          (os.map (fun e => (e, endpoint_score store e)))).1))
      (fun p q => decide (q.2 ≤ p.2))).map (·.1)
    have h2 := filter_map_fst (o :: os) (endpoint_score store)
      (rust_max_by_aux (o, endpoint_score store o)
        (os.map (fun e => (e, endpoint_score store e)))).1
    have h3 := (hperm.filter
      (fun e => e ≠ (rust_max_by_aux (o, endpoint_score store o)
        (os.map (fun e => (e, endpoint_score store e)))).1))
    have h4 : (a :: as).dedup = a :: as := List.dedup_eq_self.mpr hnd
    have h5 : (a :: as).filter
        (fun e => e ≠ (rust_max_by_aux (o, endpoint_score store o)
          (os.map (fun e => (e, endpoint_score store e)))).1) =
        (a :: as).erase (rust_max_by_aux (o, endpoint_score store o)
          (os.map (fun e => (e, endpoint_score store e)))).1 := by
      rw [hnd.erase_eq_filter]
      apply List.filter_congr
      intro x _
      by_cases hx : x = (rust_max_by_aux (o, endpoint_score store o)
        (os.map (fun e => (e, endpoint_score store e)))).1 <;> simp [hx]
    rw [h4] at h3
    rw [h2] at h1
    have hchain := h1.trans h3
    rw [h5] at hchain
    exact hchain
  · -- the fallback list is sorted by descending score
    have htrans : ∀ p q r : String × ℚ,
        decide (q.2 ≤ p.2) = true → decide (r.2 ≤ q.2) = true →
        decide (r.2 ≤ p.2) = true := by
      intro p q r hpq hqr
      rw [decide_eq_true_eq] at *
      exact le_trans hqr hpq
    have htotal : ∀ p q : String × ℚ,
        (decide (q.2 ≤ p.2) || decide (p.2 ≤ q.2)) = true := by
      intro p q
      rw [Bool.or_eq_true, decide_eq_true_eq, decide_eq_true_eq]
      exact le_total q.2 p.2
    have hsorted := @List.sorted_mergeSort (String × ℚ)
      (fun p q => decide (q.2 ≤ p.2)) htrans htotal
      (((o :: os).map (fun e => (e, endpoint_score store e))).filter
        (fun p => p.1 ≠ (rust_max_by_aux (o, endpoint_score store o)
          (os.map (fun e => (e, endpoint_score store e)))).1))
    have hformS : ∀ p ∈ (((o :: os).map (fun e => (e, endpoint_score store e))).filter
        (fun p => p.1 ≠ (rust_max_by_aux (o, endpoint_score store o)
          (os.map (fun e => (e, endpoint_score store e)))).1)).mergeSort
        (fun p q => decide (q.2 ≤ p.2)),
        p.2 = endpoint_score store p.1 := by
      intro p hp
      have hp2 := List.mem_mergeSort.mp hp
      have hp3 := List.mem_of_mem_filter hp2
      obtain ⟨e, _, hep⟩ := List.mem_map.mp hp3
      rw [← hep]
    rw [List.pairwise_map]
    refine List.Pairwise.imp_of_mem ?_ hsorted
    intro p q hp hq h
    rw [decide_eq_true_eq] at h
    rw [← hformS p hp, ← hformS q hq]
    exact h

/-- Witness for C5 on two distinct endpoints with opposite iteration order. -/
theorem c5_witness :
    (["a", "b"] : List String).Nodup ∧ ((["a", "b"] : List String) ≠ []) ∧
    (["b", "a"] : List String).Perm ((["a", "b"] : List String).dedup) ∧
    (select_endpoint (fun _ => none) ["b", "a"] ["a", "b"]).selected_endpoint
      ∈ (["a", "b"] : List String) ∧
    (select_endpoint (fun _ => none) ["b", "a"] ["a", "b"]).fallback_endpoints.Perm
      ((["a", "b"] : List String).erase
        (select_endpoint (fun _ => none) ["b", "a"] ["a", "b"]).selected_endpoint) ∧
    (select_endpoint (fun _ => none) ["b", "a"] ["a", "b"]).fallback_endpoints.Pairwise
      (fun x y => endpoint_score (fun _ => none) y ≤
        endpoint_score (fun _ => none) x) :=
  ⟨by decide, by decide, by decide,
   (c5_membership_and_fallback (fun _ => none) ["b", "a"] ["a", "b"]
     (by decide) (by decide) (by decide)).1,
   (c5_membership_and_fallback (fun _ => none) ["b", "a"] ["a", "b"]
     (by decide) (by decide) (by decide)).2.1,
   (c5_membership_and_fallback (fun _ => none) ["b", "a"] ["a", "b"]
     (by decide) (by decide) (by decide)).2.2⟩
